import Mathlib

/-!
Verification of the brainTrain adaptive cognitive-training session engine.

Shallow embedding of the round generators (src/lib/gameLogic.ts) and the
session controller (src/components/GameSession.tsx).  JavaScript numbers are
modelled as exact integers/rationals wherever the binary64 computation is
exact on the values the program reaches (the score gain
`floor(100*(1+0.2*d))` for d in [1,10], and `score/20 + 6*d` with score a
multiple of 20), and through the explicit binary64 rounding model `fl64`
where it is not: the accuracy division `correctCount/totalCount` rounds, and
at exact-half ratios `Math.round((c/t)*100)` differs from the exact half-up
rounding of `100*c/t` (e.g. 57 rather than 58 at c=23, t=40).
`Math.random()` is modelled as an injectable stream of rationals in [0,1).
-/

namespace BrainTrain

/-- JavaScript `Math.round` on the non-negative values used here:
round half toward positive infinity. -/
def jsRound (q : ℚ) : ℤ := ⌊q + 1/2⌋

/-- `Math.floor(r * n)` for a `Math.random()` draw `r`, as a natural index. -/
def jsRandInt (r : ℚ) (n : ℕ) : ℕ := (⌊r * (n : ℚ)⌋).toNat

/-- Injectable random source: a stream of `Math.random()` draws plus a cursor. -/
structure Rng where
  stream : ℕ → ℚ
  idx : ℕ

/-- Take the next draw from the stream. -/
def Rng.next (g : Rng) : ℚ × Rng := (g.stream g.idx, ⟨g.stream, g.idx + 1⟩)

/-- A lawful `Math.random()` source: every draw lies in [0,1). -/
def ValidStream (ρ : ℕ → ℚ) : Prop := ∀ n, 0 ≤ ρ n ∧ ρ n < 1

/-- The nine game ids dispatched by `generateNextRound` (GameSession.tsx 42-55). -/
inductive GameId
  | math | stroop | memory | schulte | visual | logic | flanker | reflex | order
deriving DecidableEq, Repr

/-- The two games whose rounds resolve over several interactions; `handleAnswer`
skips the total-count increment for exactly these (GameSession.tsx 102, 119). -/
def GameId.isMultiStep : GameId → Bool
  | .memory => true
  | .order => true
  | _ => false

/-- The mutable session counters owned by `GameSession`
(GameSession.tsx 23-26, 37-38). -/
structure SessionState where
  score : ℤ
  difficulty : ℤ
  streak : ℕ
  correctCount : ℕ
  totalCount : ℕ
deriving DecidableEq, Repr

/-- Initial session state: `difficulty = 1, streak = 0, score = 0`, counters 0. -/
def initialState : SessionState :=
  { score := 0, difficulty := 1, streak := 0, correctCount := 0, totalCount := 0 }

/-- `handleAnswer` (GameSession.tsx 99-124): scoring, streak and difficulty
update on a round resolution.  On a correct answer the score becomes
`Math.floor(prev + 100 * (1 + difficulty * 0.2))`, the streak increments, and
when the new streak is a multiple of 3 and difficulty is below 10 the
difficulty increments.  On an incorrect answer the streak resets to 0 and the
difficulty decrements when above 1. -/
def handleAnswer (gid : GameId) (isCorrect : Bool) (s : SessionState) : SessionState :=
  if isCorrect then
    { score := ⌊(s.score : ℚ) + 100 * (1 + (s.difficulty : ℚ) * 0.2)⌋
      difficulty :=
        if (s.streak + 1) % 3 = 0 ∧ s.difficulty < 10 then s.difficulty + 1 else s.difficulty
      streak := s.streak + 1
      correctCount := s.correctCount + 1
      totalCount := if gid.isMultiStep then s.totalCount else s.totalCount + 1 }
  else
    { score := s.score
      difficulty := if 1 < s.difficulty then s.difficulty - 1 else s.difficulty
      streak := 0
      correctCount := s.correctCount
      totalCount := if gid.isMultiStep then s.totalCount else s.totalCount + 1 }

/-- A session as a fold of round resolutions from the initial state. -/
def runAnswers (gid : GameId) (answers : List Bool) : SessionState :=
  answers.foldl (fun s b => handleAnswer gid b s) initialState

/-- A state reachable by some sequence of round resolutions. -/
def Reachable (gid : GameId) (s : SessionState) : Prop :=
  ∃ answers, runAnswers gid answers = s

/-- The floor in the correct-answer score update collapses to an exact
integer gain of `100 + 20 * d`. -/
theorem score_floor_eq (sc d : ℤ) :
    ⌊(sc : ℚ) + 100 * (1 + (d : ℚ) * 0.2)⌋ = sc + 100 + 20 * d := by
  have h : (sc : ℚ) + 100 * (1 + (d : ℚ) * 0.2) = ((sc + 100 + 20 * d : ℤ) : ℚ) := by
    push_cast
    ring
  rw [h, Int.floor_intCast]

/-- Variant of the previous lemma with the multiplication written as in the code. -/
theorem gain_floor_eq (d : ℤ) : ⌊(100 : ℚ) * (1 + (d : ℚ) * 0.2)⌋ = 100 + 20 * d := by
  have h : (100 : ℚ) * (1 + (d : ℚ) * 0.2) = ((100 + 20 * d : ℤ) : ℚ) := by
    push_cast
    ring
  rw [h, Int.floor_intCast]

/-- The spec's per-answer gain `floor(100 * (1 + 0.2 * d))` equals `100 + 20 * d`. -/
theorem spec_gain_eq (d : ℤ) : ⌊(100 : ℚ) * (1 + 0.2 * (d : ℚ))⌋ = 100 + 20 * d := by
  have h : (100 : ℚ) * (1 + 0.2 * (d : ℚ)) = ((100 + 20 * d : ℤ) : ℚ) := by
    push_cast
    ring
  rw [h, Int.floor_intCast]

/-- Core invariant of the session counters: difficulty in [1,10], score ≥ 0. -/
def CoreInv (s : SessionState) : Prop :=
  1 ≤ s.difficulty ∧ s.difficulty ≤ 10 ∧ 0 ≤ s.score

theorem coreInv_initial : CoreInv initialState := by
  refine ⟨by norm_num [initialState], by norm_num [initialState], by norm_num [initialState]⟩

theorem coreInv_handleAnswer (gid : GameId) (b : Bool) {s : SessionState}
    (h : CoreInv s) : CoreInv (handleAnswer gid b s) := by
  obtain ⟨h1, h2, h3⟩ := h
  cases b
  · simp only [handleAnswer, CoreInv, Bool.false_eq_true, if_false]
    split_ifs <;> exact ⟨by omega, by omega, by omega⟩
  · by_cases hm : (s.streak + 1) % 3 = 0 <;> by_cases hd : s.difficulty < 10 <;>
      simp [handleAnswer, CoreInv, hm, hd, score_floor_eq, gain_floor_eq] <;> omega

theorem coreInv_foldl (gid : GameId) (l : List Bool) {s : SessionState} (h : CoreInv s) :
    CoreInv (l.foldl (fun s b => handleAnswer gid b s) s) := by
  induction l generalizing s with
  | nil => exact h
  | cons b l ih => exact ih (coreInv_handleAnswer gid b h)

theorem coreInv_runAnswers (gid : GameId) (answers : List Bool) :
    CoreInv (runAnswers gid answers) :=
  coreInv_foldl gid answers coreInv_initial

theorem coreInv_reachable {gid : GameId} {s : SessionState} (h : Reachable gid s) :
    CoreInv s := by
  obtain ⟨answers, rfl⟩ := h
  exact coreInv_runAnswers gid answers

/-- C1.  For every sequence of round resolutions starting from difficulty 1 and
streak 0, difficulty stays within [1,10]; a correct answer increments the
streak, and every 3rd consecutive correct answer increments difficulty by 1
(capped at 10) without resetting the streak; an incorrect answer resets the
streak to 0 and decrements difficulty by 1 (floored at 1). -/
theorem c1_difficulty_adapter (gid : GameId) (s : SessionState) (h : Reachable gid s) :
    (1 ≤ s.difficulty ∧ s.difficulty ≤ 10) ∧
    (handleAnswer gid true s).streak = s.streak + 1 ∧
    ((handleAnswer gid true s).difficulty =
      if (s.streak + 1) % 3 = 0 then min (s.difficulty + 1) 10 else s.difficulty) ∧
    (handleAnswer gid false s).streak = 0 ∧
    (handleAnswer gid false s).difficulty = max (s.difficulty - 1) 1 := by
  obtain ⟨h1, h2, h3⟩ := coreInv_reachable h
  refine ⟨⟨h1, h2⟩, ?_, ?_, ?_, ?_⟩
  · simp [handleAnswer]
  · by_cases hm : (s.streak + 1) % 3 = 0 <;> by_cases hd : s.difficulty < 10 <;>
      simp [handleAnswer, hm, hd] <;> omega
  · simp [handleAnswer]
  · simp only [handleAnswer, Bool.false_eq_true, if_false]
    split_ifs <;> omega

/-- Witness for C1: the initial state is reachable; all conclusions hold there. -/
theorem c1_difficulty_adapter_witness :
    (1 ≤ initialState.difficulty ∧ initialState.difficulty ≤ 10) ∧
    (handleAnswer GameId.math true initialState).streak = initialState.streak + 1 ∧
    ((handleAnswer GameId.math true initialState).difficulty =
      if (initialState.streak + 1) % 3 = 0 then min (initialState.difficulty + 1) 10
      else initialState.difficulty) ∧
    (handleAnswer GameId.math false initialState).streak = 0 ∧
    (handleAnswer GameId.math false initialState).difficulty =
      max (initialState.difficulty - 1) 1 :=
  c1_difficulty_adapter GameId.math initialState ⟨[], rfl⟩

/-- Score never decreases across a fold of resolutions from a state with the
core invariant. -/
theorem score_mono_foldl (gid : GameId) (l : List Bool) {s : SessionState} (h : CoreInv s) :
    s.score ≤ (l.foldl (fun s b => handleAnswer gid b s) s).score := by
  induction l generalizing s with
  | nil => exact le_refl _
  | cons b l ih =>
      refine le_trans ?_ (ih (coreInv_handleAnswer gid b h))
      obtain ⟨h1, h2, h3⟩ := h
      cases b
      · simp [handleAnswer]
      · simp [handleAnswer, score_floor_eq, gain_floor_eq]
        omega

/-- C2.  On every correct round resolution the score increases by exactly
`floor(100 * (1 + 0.2 * d))` where `d` is the difficulty in effect before any
adjustment triggered by that same answer; on every incorrect resolution the
score is unchanged; hence score is monotonically non-decreasing over a
session. -/
theorem c2_scoring (gid : GameId) (s : SessionState) (answers extra : List Bool) :
    (handleAnswer gid true s).score = s.score + ⌊(100 : ℚ) * (1 + 0.2 * (s.difficulty : ℚ))⌋ ∧
    (handleAnswer gid false s).score = s.score ∧
    (runAnswers gid answers).score ≤ (runAnswers gid (answers ++ extra)).score := by
  refine ⟨?_, ?_, ?_⟩
  · simp [handleAnswer, score_floor_eq, gain_floor_eq, spec_gain_eq]
  · simp [handleAnswer]
  · simp only [runAnswers, List.foldl_append]
    exact score_mono_foldl gid extra (coreInv_runAnswers gid answers)

/-! ## Session controller (GameSession.tsx): timer, completion, exit -/

/-- Session duration in seconds (GameSession.tsx 20). -/
def GAME_DURATION : ℕ := 60

/-- The result triple emitted to `onComplete` (GameSession.tsx 70-78). -/
structure SessionResult where
  performance : ℤ
  accuracy : ℤ
  difficultyReached : ℤ
deriving DecidableEq, Repr

/-- Round a rational to the nearest integer, ties to even (the IEEE default
rounding direction). -/
def rne (q : ℚ) : ℤ :=
  if q - ⌊q⌋ < 1/2 then ⌊q⌋
  else if 1/2 < q - ⌊q⌋ then ⌊q⌋ + 1
  else if ⌊q⌋ % 2 = 0 then ⌊q⌋ else ⌊q⌋ + 1

/-- Exponent of the binary64 quantum at magnitude `q`: `e - 52` for normal
magnitudes `2^e ≤ |q| < 2^(e+1)`, floored at the subnormal quantum
`2^(-1074)`. -/
def ulpExp (q : ℚ) : ℤ := max (Int.log 2 |q| - 52) (-1074)

/-- IEEE binary64 rounding (round to nearest, ties to even) of an exact
rational: the nearest multiple of the quantum `2^(ulpExp q)`.  Gradual
underflow is modelled; overflow (magnitudes ≥ 2^1024) is not and never arises
for the values below. -/
def fl64 (q : ℚ) : ℚ :=
  if q = 0 then 0 else (rne (q / 2 ^ ulpExp q) : ℚ) * 2 ^ ulpExp q

/-- Timer-expiry computation (GameSession.tsx 70-78):
`accuracy = totalCount > 0 ? Math.round((correctCount / totalCount) * 100) : 0`,
`performance = Math.min(100, Math.round((score / 20) + (difficulty * 6)))`,
and the difficulty reached is passed through.  The performance operands are
exact in binary64 (score is a sum of gains `100+20d`, a multiple of 20, so
`score/20` and `difficulty*6` and their sum are exactly representable), so
that formula is modelled over exact rationals; the accuracy division and the
subsequent multiplication by 100 round, so they go through `fl64`.
`Math.round` itself is exact rounding of the double's value, half toward +∞
(ECMA-262), i.e. `jsRound`. -/
def sessionResult (s : SessionState) : SessionResult :=
  { performance := min 100 (jsRound ((s.score : ℚ) / 20 + (s.difficulty : ℚ) * 6))
    accuracy :=
      if 0 < s.totalCount then
        jsRound (fl64 (fl64 ((s.correctCount : ℚ) / (s.totalCount : ℚ)) * 100))
      else 0
    difficultyReached := s.difficulty }

/-- A full round resolution as seen by the session counters: the multi-step
click handlers (`handleMemoryClick` 149/159, `handleOrderClick` 169/176) bump
`totalCount` at resolution before delegating to `handleAnswer`; the
single-interaction games go through `handleAnswer` alone. -/
def resolveRound (gid : GameId) (isCorrect : Bool) (s : SessionState) : SessionState :=
  if gid.isMultiStep then
    handleAnswer gid isCorrect { s with totalCount := s.totalCount + 1 }
  else handleAnswer gid isCorrect s

/-- Phase of the session controller: counting down, completed by natural
expiry, or exited early via the header X button (GameSession.tsx 484). -/
inductive Phase
  | running (timeLeft : ℕ)
  | completed
  | exited
deriving DecidableEq, Repr

/-- Full controller state. -/
structure ControllerState where
  phase : Phase
  session : SessionState
deriving DecidableEq, Repr

/-- Events delivered to the single-threaded controller: a 1-second timer tick,
a round resolution, or a click on the exit button. -/
inductive SEvent
  | tick
  | answer (isCorrect : Bool)
  | exitClick
deriving DecidableEq, Repr

/-- Controller at session start: `timeRemaining = 60`, fresh counters. -/
def initialController : ControllerState :=
  { phase := .running GAME_DURATION, session := initialState }

/-- One event step.  A tick decrements `timeLeft`; the tick that exhausts it
completes the session and emits `sessionResult` to `onComplete`
(GameSession.tsx 70-83).  An exit click moves to the exited phase with no
emission (the component unmounts).  Completed and exited are terminal. -/
def stepEvent (gid : GameId) (st : ControllerState) (e : SEvent) :
    ControllerState × Option SessionResult :=
  match st.phase, e with
  | .running t, .tick =>
      if t ≤ 1 then
        ({ phase := .completed, session := st.session }, some (sessionResult st.session))
      else ({ phase := .running (t - 1), session := st.session }, none)
  | .running t, .answer b =>
      ({ phase := .running t, session := resolveRound gid b st.session }, none)
  | .running _, .exitClick => ({ phase := .exited, session := st.session }, none)
  | .completed, _ => (st, none)
  | .exited, _ => (st, none)

/-- Controller state after a list of events. -/
def finalController (gid : GameId) : ControllerState → List SEvent → ControllerState
  | st, [] => st
  | st, e :: es => finalController gid (stepEvent gid st e).1 es

/-- Every result emitted to `onComplete` along a list of events, in order. -/
def emittedResults (gid : GameId) : ControllerState → List SEvent → List SessionResult
  | _, [] => []
  | st, e :: es =>
      (stepEvent gid st e).2.toList ++ emittedResults gid (stepEvent gid st e).1 es

/-- Session invariant: core invariant plus `correctCount ≤ totalCount`. -/
def SessionInv (s : SessionState) : Prop :=
  CoreInv s ∧ s.correctCount ≤ s.totalCount

theorem sessionInv_initial : SessionInv initialState :=
  ⟨coreInv_initial, le_refl 0⟩

theorem sessionInv_resolveRound (gid : GameId) (b : Bool) {s : SessionState}
    (h : SessionInv s) : SessionInv (resolveRound gid b s) := by
  obtain ⟨⟨h1, h2, h3⟩, hcnt⟩ := h
  unfold resolveRound
  split_ifs with hms
  · refine ⟨coreInv_handleAnswer gid b ⟨h1, h2, h3⟩, ?_⟩
    cases b <;> simp [handleAnswer, hms] <;> omega
  · refine ⟨coreInv_handleAnswer gid b ⟨h1, h2, h3⟩, ?_⟩
    cases b <;> simp [handleAnswer, hms] <;> omega

theorem sessionInv_stepEvent (gid : GameId) (st : ControllerState) (e : SEvent)
    (h : SessionInv st.session) : SessionInv ((stepEvent gid st e).1).session := by
  rcases st with ⟨ph, s⟩
  cases ph with
  | running t =>
      cases e with
      | tick => by_cases ht : t ≤ 1 <;> simp [stepEvent, ht] <;> exact h
      | answer b => simpa [stepEvent] using sessionInv_resolveRound gid b h
      | exitClick => simpa [stepEvent] using h
  | completed => cases e <;> exact h
  | exited => cases e <;> exact h

theorem sessionInv_finalController (gid : GameId) (es : List SEvent) :
    ∀ st : ControllerState, SessionInv st.session →
      SessionInv ((finalController gid st es).session) := by
  induction es with
  | nil => intro st h; exact h
  | cons e es ih => intro st h; exact ih _ (sessionInv_stepEvent gid st e h)

/-- The completed phase is absorbing: no events change it and nothing more is
emitted. -/
theorem finalController_completed (gid : GameId) (es : List SEvent) :
    ∀ s : SessionState,
      finalController gid ⟨.completed, s⟩ es = ⟨.completed, s⟩ ∧
      emittedResults gid ⟨.completed, s⟩ es = [] := by
  induction es with
  | nil => intro s; exact ⟨rfl, rfl⟩
  | cons e es ih =>
      intro s
      cases e <;> simpa [finalController, emittedResults, stepEvent] using ih s

/-- Emission count bookkeeping: along any event list the number of emitted
results is 1 when the run reaches the completed phase from a not-yet-completed
start, and 0 otherwise. -/
theorem emittedResults_length (gid : GameId) (es : List SEvent) :
    ∀ st : ControllerState,
      (emittedResults gid st es).length =
        if (finalController gid st es).phase = Phase.completed ∧
            st.phase ≠ Phase.completed then 1 else 0 := by
  induction es with
  | nil =>
      intro st
      simp only [emittedResults, finalController, List.length_nil]
      split_ifs with hc
      · exact absurd hc.1 hc.2
      · rfl
  | cons e es ih =>
      intro st
      rcases st with ⟨ph, s⟩
      cases ph with
      | running t =>
          cases e with
          | tick =>
              by_cases ht : t ≤ 1
              · have habs := finalController_completed gid es s
                simp [emittedResults, finalController, stepEvent, ht, habs.1, habs.2]
              · rw [show (emittedResults gid ⟨Phase.running t, s⟩ (SEvent.tick :: es)) =
                      emittedResults gid (stepEvent gid ⟨Phase.running t, s⟩ SEvent.tick).1 es
                    from by simp [emittedResults, stepEvent, ht]]
                rw [ih]
                simp [finalController, stepEvent, ht]
          | answer b =>
              rw [show (emittedResults gid ⟨Phase.running t, s⟩ (SEvent.answer b :: es)) =
                    emittedResults gid (stepEvent gid ⟨Phase.running t, s⟩ (SEvent.answer b)).1 es
                  from by simp [emittedResults, stepEvent]]
              rw [ih]
              simp [finalController, stepEvent]
          | exitClick =>
              rw [show (emittedResults gid ⟨Phase.running t, s⟩ (SEvent.exitClick :: es)) =
                    emittedResults gid (stepEvent gid ⟨Phase.running t, s⟩ SEvent.exitClick).1 es
                  from by simp [emittedResults, stepEvent]]
              rw [ih]
              simp [finalController, stepEvent]
      | completed =>
          have habs := finalController_completed gid es s
          cases e <;> simp [emittedResults, finalController, stepEvent, habs.1, habs.2]
      | exited =>
          rw [show (emittedResults gid ⟨Phase.exited, s⟩ (e :: es)) =
                emittedResults gid (stepEvent gid ⟨Phase.exited, s⟩ e).1 es
              from by cases e <;> simp [emittedResults, stepEvent]]
          rw [ih]
          cases e <;> simp [finalController, stepEvent]

/-- Every emitted result is the `sessionResult` of the final session state,
and emission happens only in the completed phase. -/
theorem emittedResults_sound (gid : GameId) (es : List SEvent) :
    ∀ st : ControllerState, ∀ r ∈ emittedResults gid st es,
      (finalController gid st es).phase = Phase.completed ∧
      r = sessionResult ((finalController gid st es).session) := by
  induction es with
  | nil => intro st r hr; simp [emittedResults] at hr
  | cons e es ih =>
      intro st r hr
      rcases st with ⟨ph, s⟩
      cases ph with
      | running t =>
          cases e with
          | tick =>
              by_cases ht : t ≤ 1
              · have habs := finalController_completed gid es s
                simp [emittedResults, stepEvent, ht, habs.2] at hr
                subst hr
                simp [finalController, stepEvent, ht, habs.1]
              · simp only [emittedResults, stepEvent, ht, if_false] at hr
                simpa [finalController, stepEvent, ht] using
                  ih _ r (by simpa using hr)
          | answer b =>
              simp only [emittedResults, stepEvent] at hr
              simpa [finalController, stepEvent] using ih _ r (by simpa using hr)
          | exitClick =>
              simp only [emittedResults, stepEvent] at hr
              simpa [finalController, stepEvent] using ih _ r (by simpa using hr)
      | completed =>
          have habs := finalController_completed gid es s
          cases e <;> simp [emittedResults, stepEvent, habs.2] at hr
      | exited =>
          cases e <;> simp only [emittedResults, stepEvent] at hr <;>
            simpa [finalController, stepEvent] using ih _ r (by simpa using hr)

/-- C4.  For every session run, the completion callback is invoked exactly once
when the run reaches the completed phase (countdown exhausted) and never
otherwise; in particular a session exited before expiry emits no result. -/
theorem c4_complete_exactly_once (gid : GameId) (es : List SEvent) :
    (emittedResults gid initialController es).length =
      (if (finalController gid initialController es).phase = Phase.completed
        then 1 else 0) := by
  rw [emittedResults_length gid es initialController]
  simp [initialController]

theorem jsRound_ge {z : ℤ} {q : ℚ} (h : (z : ℚ) ≤ q) : z ≤ jsRound q := by
  unfold jsRound
  exact Int.le_floor.mpr (by linarith)

theorem jsRound_le {z : ℤ} {q : ℚ} (h : q < (z : ℚ) + 1/2) : jsRound q ≤ z := by
  have hlt : ⌊q + 1/2⌋ < z + 1 := Int.floor_lt.mpr (by push_cast; linarith)
  unfold jsRound
  omega

theorem sessionResult_performance_bounds (s : SessionState) (h : SessionInv s) :
    6 ≤ (sessionResult s).performance ∧ (sessionResult s).performance ≤ 100 := by
  obtain ⟨⟨h1, h2, h3⟩, hcnt⟩ := h
  simp only [sessionResult]
  have hx : (6 : ℚ) ≤ (s.score : ℚ) / 20 + (s.difficulty : ℚ) * 6 := by
    have hs : (0 : ℚ) ≤ (s.score : ℚ) := by exact_mod_cast h3
    have hd : (1 : ℚ) ≤ (s.difficulty : ℚ) := by exact_mod_cast h1
    have hq : (0 : ℚ) ≤ (s.score : ℚ) / 20 := by positivity
    nlinarith
  exact ⟨le_min (by norm_num) (jsRound_ge (by exact_mod_cast hx)), min_le_left _ _⟩

theorem rne_nonneg {q : ℚ} (h : 0 ≤ q) : 0 ≤ rne q := by
  have hf : 0 ≤ ⌊q⌋ := Int.floor_nonneg.mpr h
  unfold rne
  split_ifs <;> omega

theorem rne_le (q : ℚ) : (rne q : ℚ) ≤ q + 1/2 := by
  have hf : (⌊q⌋ : ℚ) ≤ q := Int.floor_le q
  unfold rne
  split_ifs <;> push_cast <;> linarith

theorem fl64_zero : fl64 0 = 0 := by
  unfold fl64
  rw [if_pos rfl]

theorem fl64_nonneg {q : ℚ} (h : 0 ≤ q) : 0 ≤ fl64 q := by
  unfold fl64
  split_ifs with h0
  · exact le_refl 0
  · have hp : (0 : ℚ) < 2 ^ ulpExp q := zpow_pos (by norm_num) _
    exact mul_nonneg (by exact_mod_cast rne_nonneg (div_nonneg h hp.le)) hp.le

/-- An upper bound on `Int.log 2` from an upper bound by a power of two. -/
theorem int_log_le {q : ℚ} (h0 : 0 < q) {m : ℤ} (h2 : q < (2 : ℚ) ^ (m + 1)) :
    Int.log 2 q ≤ m := by
  by_contra hlt
  push_neg at hlt
  have hmono : (2 : ℚ) ^ (m + 1) ≤ (2 : ℚ) ^ Int.log 2 q :=
    zpow_le_zpow_right₀ (by norm_num) (by omega)
  have hself := Int.zpow_log_le_self (b := 2) (R := ℚ) (by norm_num) h0
  push_cast at hself
  linarith

/-- `Int.log 2` is determined by a bracketing pair of powers of two. -/
theorem int_log_eq {q : ℚ} (h0 : 0 < q) {m : ℤ} (h1 : (2 : ℚ) ^ m ≤ q)
    (h2 : q < (2 : ℚ) ^ (m + 1)) : Int.log 2 q = m := by
  have hle : Int.log 2 q ≤ m := int_log_le h0 h2
  have hge : m ≤ Int.log 2 q := by
    by_contra hlt
    push_neg at hlt
    have hsucc := Int.lt_zpow_succ_log_self (b := 2) (R := ℚ) (by norm_num) q
    push_cast at hsucc
    have hmono : (2 : ℚ) ^ (Int.log 2 q + 1) ≤ (2 : ℚ) ^ m :=
      zpow_le_zpow_right₀ (by norm_num) (by omega)
    linarith
  omega

/-- Rounding error bound: below `2^(m+1)` (with `m` above the subnormal
range) the binary64 rounding overshoots by less than half an ulp,
`2^(m-53)`. -/
theorem fl64_le_add {q : ℚ} (h0 : 0 < q) {m : ℤ} (hm : -1022 ≤ m)
    (hq : q < (2 : ℚ) ^ (m + 1)) : fl64 q ≤ q + (2 : ℚ) ^ (m - 53) := by
  have habs : |q| = q := abs_of_pos h0
  have hlog : Int.log 2 q ≤ m := int_log_le h0 hq
  have hs : ulpExp q ≤ m - 52 := by
    unfold ulpExp
    rw [habs]
    exact max_le (by omega) (by omega)
  have hp : (0 : ℚ) < 2 ^ ulpExp q := zpow_pos (by norm_num) _
  have h1 : fl64 q ≤ q + 2 ^ ulpExp q / 2 := by
    unfold fl64
    rw [if_neg (ne_of_gt h0)]
    calc (rne (q / 2 ^ ulpExp q) : ℚ) * 2 ^ ulpExp q
        ≤ (q / 2 ^ ulpExp q + 1/2) * 2 ^ ulpExp q :=
          mul_le_mul_of_nonneg_right (rne_le _) hp.le
      _ = q + 2 ^ ulpExp q / 2 := by
          field_simp
          ring
  have h2 : (2 : ℚ) ^ ulpExp q / 2 ≤ (2 : ℚ) ^ (m - 53) := by
    have hmono : (2 : ℚ) ^ (ulpExp q - 1) ≤ (2 : ℚ) ^ (m - 53) :=
      zpow_le_zpow_right₀ (by norm_num) (by omega)
    have hdiv : (2 : ℚ) ^ (ulpExp q - 1) = 2 ^ ulpExp q / 2 := by
      rw [zpow_sub_one₀ (by norm_num : (2 : ℚ) ≠ 0)]
      ring
    linarith [hdiv ▸ hmono]
  linarith

/-- The binary64 evaluation of `round((c/t)*100)` lies in [0,100] whenever
`c ≤ t`. -/
theorem accuracy_bounds_aux {c t : ℕ} (hct : c ≤ t) (ht : 0 < t) :
    0 ≤ jsRound (fl64 (fl64 ((c : ℚ) / (t : ℚ)) * 100)) ∧
    jsRound (fl64 (fl64 ((c : ℚ) / (t : ℚ)) * 100)) ≤ 100 := by
  have htq : (0 : ℚ) < (t : ℚ) := by exact_mod_cast ht
  have hq1nn : (0 : ℚ) ≤ (c : ℚ) / (t : ℚ) := by positivity
  have hq1le : (c : ℚ) / (t : ℚ) ≤ 1 := by
    rw [div_le_one htq]
    exact_mod_cast hct
  have h53 : (2 : ℚ) ^ ((0 : ℤ) - 53) ≤ 1/512 := by
    calc (2 : ℚ) ^ ((0 : ℤ) - 53) ≤ (2 : ℚ) ^ (-(9 : ℤ)) :=
          zpow_le_zpow_right₀ (by norm_num) (by omega)
      _ = 1/512 := by
          rw [zpow_neg]
          norm_num
  have h47 : (2 : ℚ) ^ ((6 : ℤ) - 53) ≤ 1/512 := by
    calc (2 : ℚ) ^ ((6 : ℤ) - 53) ≤ (2 : ℚ) ^ (-(9 : ℤ)) :=
          zpow_le_zpow_right₀ (by norm_num) (by omega)
      _ = 1/512 := by
          rw [zpow_neg]
          norm_num
  have h53nn : (0 : ℚ) ≤ (2 : ℚ) ^ ((0 : ℤ) - 53) := (zpow_pos (by norm_num) _).le
  have h47nn : (0 : ℚ) ≤ (2 : ℚ) ^ ((6 : ℤ) - 53) := (zpow_pos (by norm_num) _).le
  have hx1nn : 0 ≤ fl64 ((c : ℚ) / (t : ℚ)) := fl64_nonneg hq1nn
  have hx1le : fl64 ((c : ℚ) / (t : ℚ)) ≤ (c : ℚ) / (t : ℚ) + (2 : ℚ) ^ ((0 : ℤ) - 53) := by
    rcases eq_or_lt_of_le hq1nn with h0 | h0
    · rw [← h0, fl64_zero]
      linarith
    · exact fl64_le_add h0 (by norm_num) (by rw [zero_add, zpow_one]; linarith)
  have hq2nn : (0 : ℚ) ≤ fl64 ((c : ℚ) / (t : ℚ)) * 100 := by positivity
  have hq2le : fl64 ((c : ℚ) / (t : ℚ)) * 100 ≤ 100 + 100/512 := by nlinarith
  have hx2nn : 0 ≤ fl64 (fl64 ((c : ℚ) / (t : ℚ)) * 100) := fl64_nonneg hq2nn
  have hx2le : fl64 (fl64 ((c : ℚ) / (t : ℚ)) * 100) ≤ 100 + 100/512 + 1/512 := by
    rcases eq_or_lt_of_le hq2nn with h0 | h0
    · rw [← h0, fl64_zero]
      linarith
    · have hb := fl64_le_add h0 (m := 6) (by norm_num)
        (by
          have h7 : ((6 : ℤ) + 1) = (7 : ℤ) := by norm_num
          rw [h7, show ((2 : ℚ) ^ (7 : ℤ)) = 128 by norm_num]
          linarith)
      linarith
  constructor
  · exact jsRound_ge (by exact_mod_cast hx2nn)
  · exact jsRound_le (by push_cast; linarith)

theorem sessionResult_accuracy_bounds (s : SessionState) (h : SessionInv s) :
    0 ≤ (sessionResult s).accuracy ∧ (sessionResult s).accuracy ≤ 100 := by
  obtain ⟨⟨h1, h2, h3⟩, hcnt⟩ := h
  simp only [sessionResult]
  by_cases ht : 0 < s.totalCount
  · rw [if_pos ht]
    exact accuracy_bounds_aux hcnt ht
  · rw [if_neg ht]
    norm_num

/-- C3 (amended).  At session end (timer expiry), the emitted result
satisfies `performanceIndex = min(100, round(score / 20 + difficulty * 6))`
and lies in [0,100]; `accuracy` is `round(100 * correctCount / totalCount)`
evaluated in IEEE binary64 arithmetic — which differs from the exact half-up
rounding at exact-half ratios such as 23/40 — is 0 when `totalCount = 0`, and
lies in [0,100]; and `difficultyReached` equals the difficulty reached at
expiry. -/
theorem c3_session_result (gid : GameId) (es : List SEvent) (r : SessionResult)
    (hr : r ∈ emittedResults gid initialController es) :
    r = sessionResult (finalController gid initialController es).session ∧
    r.performance = min 100 (jsRound
      (((finalController gid initialController es).session.score : ℚ) / 20 +
        ((finalController gid initialController es).session.difficulty : ℚ) * 6)) ∧
    0 ≤ r.performance ∧ r.performance ≤ 100 ∧
    ((finalController gid initialController es).session.totalCount = 0 →
      r.accuracy = 0) ∧
    ((finalController gid initialController es).session.totalCount ≠ 0 →
      r.accuracy = jsRound (fl64 (fl64
        (((finalController gid initialController es).session.correctCount : ℚ) /
          ((finalController gid initialController es).session.totalCount : ℚ)) * 100))) ∧
    0 ≤ r.accuracy ∧ r.accuracy ≤ 100 ∧
    r.difficultyReached = (finalController gid initialController es).session.difficulty := by
  obtain ⟨hph, hre⟩ := emittedResults_sound gid es initialController r hr
  have hinv : SessionInv ((finalController gid initialController es).session) :=
    sessionInv_finalController gid es initialController sessionInv_initial
  obtain ⟨hp1, hp2⟩ := sessionResult_performance_bounds _ hinv
  obtain ⟨ha1, ha2⟩ := sessionResult_accuracy_bounds _ hinv
  subst hre
  refine ⟨rfl, rfl, by omega, hp2, ?_, ?_, ha1, ha2, rfl⟩
  · intro h0
    simp [sessionResult, h0]
  · intro h0
    simp [sessionResult, Nat.pos_of_ne_zero h0]

/-- Witness for C3: the 60-tick trace completes naturally and emits the result
of the untouched initial state; performance lies within [0,100]. -/
theorem c3_session_result_witness :
    sessionResult initialState ∈
      emittedResults GameId.math initialController (List.replicate 60 SEvent.tick) ∧
    0 ≤ (sessionResult initialState).performance ∧
    (sessionResult initialState).performance ≤ 100 := by
  have hlist : emittedResults GameId.math initialController
      (List.replicate 60 SEvent.tick) = [sessionResult initialState] := rfl
  have hr : sessionResult initialState ∈
      emittedResults GameId.math initialController (List.replicate 60 SEvent.tick) := by
    rw [hlist]
    exact List.mem_singleton.mpr rfl
  have h := c3_session_result GameId.math (List.replicate 60 SEvent.tick)
    (sessionResult initialState) hr
  exact ⟨hr, h.2.2.1, h.2.2.2.1⟩

/-- Binary64 evaluation of the division 23/40: the double just below 0.575. -/
theorem fl64_frac_cex : fl64 ((23 : ℚ) / 40) = 5179139571476070 / 2 ^ 53 := by
  have h0 : (0 : ℚ) < 23 / 40 := by norm_num
  have hlog : Int.log 2 ((23 : ℚ) / 40) = -1 := by
    apply int_log_eq h0
    · rw [zpow_neg, zpow_one]
      norm_num
    · rw [show (-1 : ℤ) + 1 = 0 by norm_num, zpow_zero]
      norm_num
  have hmax : ulpExp ((23 : ℚ) / 40) = -53 := by
    unfold ulpExp
    rw [abs_of_pos h0, hlog]
    norm_num
  unfold fl64
  rw [if_neg (by norm_num), hmax]
  have hdiv : (23 / 40 : ℚ) / 2 ^ (-53 : ℤ) = 5179139571476070 + 2/5 := by
    rw [zpow_neg, div_inv_eq_mul, show ((2 : ℚ) ^ (53 : ℤ)) = 2 ^ (53 : ℕ) from
      zpow_ofNat 2 53]
    norm_num
  rw [hdiv]
  have hfl : ⌊(5179139571476070 : ℚ) + 2/5⌋ = 5179139571476070 := by
    rw [Int.floor_eq_iff]
    constructor <;> push_cast <;> norm_num
  have hrne : rne ((5179139571476070 : ℚ) + 2/5) = 5179139571476070 := by
    unfold rne
    rw [hfl, if_pos (by push_cast; norm_num)]
  rw [hrne, zpow_neg, show ((2 : ℚ) ^ (53 : ℤ)) = 2 ^ (53 : ℕ) from zpow_ofNat 2 53]
  push_cast
  norm_num

/-- Binary64 evaluation of the multiplication by 100: the double just below
57.5 (57.49999999999999289...). -/
theorem fl64_mul_cex :
    fl64 (5179139571476070 / 2 ^ 53 * 100 : ℚ) = 8092405580431359 / 2 ^ 47 := by
  have h0 : (0 : ℚ) < 5179139571476070 / 2 ^ 53 * 100 := by norm_num
  have hlog : Int.log 2 (5179139571476070 / 2 ^ 53 * 100 : ℚ) = 5 := by
    apply int_log_eq h0
    · rw [show ((2 : ℚ) ^ (5 : ℤ)) = 2 ^ (5 : ℕ) from zpow_ofNat 2 5]
      norm_num
    · rw [show (5 : ℤ) + 1 = 6 by norm_num,
        show ((2 : ℚ) ^ (6 : ℤ)) = 2 ^ (6 : ℕ) from zpow_ofNat 2 6]
      norm_num
  have hmax : ulpExp (5179139571476070 / 2 ^ 53 * 100 : ℚ) = -47 := by
    unfold ulpExp
    rw [abs_of_pos h0, hlog]
    norm_num
  unfold fl64
  rw [if_neg (by norm_num), hmax]
  have hdiv : (5179139571476070 / 2 ^ 53 * 100 : ℚ) / 2 ^ (-47 : ℤ)
      = 8092405580431359 + 3/8 := by
    rw [zpow_neg, div_inv_eq_mul, show ((2 : ℚ) ^ (47 : ℤ)) = 2 ^ (47 : ℕ) from
      zpow_ofNat 2 47]
    norm_num
  rw [hdiv]
  have hfl : ⌊(8092405580431359 : ℚ) + 3/8⌋ = 8092405580431359 := by
    rw [Int.floor_eq_iff]
    constructor <;> push_cast <;> norm_num
  have hrne : rne ((8092405580431359 : ℚ) + 3/8) = 8092405580431359 := by
    unfold rne
    rw [hfl, if_pos (by push_cast; norm_num)]
  rw [hrne, zpow_neg, show ((2 : ℚ) ^ (47 : ℤ)) = 2 ^ (47 : ℕ) from zpow_ofNat 2 47]
  push_cast
  norm_num

/-- `Math.round` of the double below 57.5 is 57. -/
theorem jsRound_cex : jsRound (8092405580431359 / 2 ^ 47 : ℚ) = 57 := by
  unfold jsRound
  rw [Int.floor_eq_iff]
  constructor <;> push_cast <;> norm_num

/-- The exact half-up rounding of `100*23/40 = 57.5` is 58. -/
theorem jsRound_exact_half : jsRound ((23 : ℚ) / 40 * 100) = 58 := by
  have h : (23 : ℚ) / 40 * 100 + 1/2 = ((58 : ℤ) : ℚ) := by push_cast; norm_num
  unfold jsRound
  rw [h, Int.floor_intCast]

/-- Event trace for the C3 counterexample: 23 correct and 17 incorrect math
rounds, then 60 timer ticks to natural expiry. -/
def cexTrace : List SEvent :=
  List.replicate 23 (SEvent.answer true) ++ List.replicate 17 (SEvent.answer false) ++
    List.replicate 60 SEvent.tick

set_option maxRecDepth 8000 in
/-- Counterexample for C3.  A session of 23 correct and 17 incorrect rounds
expires with `correctCount = 23, totalCount = 40` and emits accuracy 57 — the
binary64 value of `Math.round((23/40)*100)` — while the claim's formula
`round(100*23/40) = round(57.5)` gives 58. -/
theorem c3_accuracy_counterexample :
    (finalController GameId.math initialController cexTrace).session.correctCount
      = 23 ∧
    (finalController GameId.math initialController cexTrace).session.totalCount
      = 40 ∧
    (emittedResults GameId.math initialController cexTrace).map (fun r => r.accuracy)
      = [57] ∧
    jsRound ((23 : ℚ) / 40 * 100) = 58 := by
  have hc : (finalController GameId.math initialController cexTrace).session.correctCount
      = 23 := rfl
  have ht : (finalController GameId.math initialController cexTrace).session.totalCount
      = 40 := rfl
  have hemit : emittedResults GameId.math initialController cexTrace =
      [sessionResult (finalController GameId.math initialController cexTrace).session] :=
    rfl
  have hacc : (sessionResult
      (finalController GameId.math initialController cexTrace).session).accuracy
      = 57 := by
    simp only [sessionResult]
    rw [hc, ht, if_pos (by norm_num : (0 : ℕ) < 40)]
    push_cast
    rw [fl64_frac_cex, fl64_mul_cex, jsRound_cex]
  refine ⟨hc, ht, ?_, jsRound_exact_half⟩
  rw [hemit, List.map_cons, List.map_nil, hacc]

/-- C10.  For every session that ends by natural expiry, the emitted
performance index is at least 6: since difficulty ≥ 1 and score ≥ 0 always
hold, `min(100, round(score/20 + difficulty*6)) ≥ 6`, so values 0 through 5 of
the declared 0..100 range are never produced. -/
theorem c10_performance_at_least_six (gid : GameId) (es : List SEvent)
    (r : SessionResult) (hr : r ∈ emittedResults gid initialController es) :
    6 ≤ r.performance := by
  obtain ⟨hph, hre⟩ := emittedResults_sound gid es initialController r hr
  have hinv : SessionInv ((finalController gid initialController es).session) :=
    sessionInv_finalController gid es initialController sessionInv_initial
  rw [hre]
  exact (sessionResult_performance_bounds _ hinv).1

/-- Witness for C10: on the 60-tick trace the emitted performance is ≥ 6. -/
theorem c10_performance_at_least_six_witness :
    6 ≤ (sessionResult initialState).performance := by
  have hlist : emittedResults GameId.math initialController
      (List.replicate 60 SEvent.tick) = [sessionResult initialState] := rfl
  have hr : sessionResult initialState ∈
      emittedResults GameId.math initialController (List.replicate 60 SEvent.tick) := by
    rw [hlist]
    exact List.mem_singleton.mpr rfl
  exact c10_performance_at_least_six GameId.math (List.replicate 60 SEvent.tick) _ hr

/-! ## Round generators (src/lib/gameLogic.ts) -/

/-- Insertion into a JavaScript `Set<number>` kept as an insertion-ordered
list without duplicates. -/
def setAdd (l : List ℤ) (x : ℤ) : List ℤ := if x ∈ l then l else l ++ [x]

/-- Same as `setAdd` for natural-number sets. -/
def setAddNat (l : List ℕ) (x : ℕ) : List ℕ := if x ∈ l then l else l ++ [x]

/-- The operator array `['+', '-', '*']` (gameLogic.ts 5). -/
def mathOps : List String := ["+", "-", "*"]

/-- Operator selection (gameLogic.ts 6):
`ops[Math.floor(Math.random() * Math.min(difficulty > 3 ? 2 : 1, 3))]`;
an out-of-range index (impossible for draws in [0,1)) models JS `undefined`. -/
def mathOperator (difficulty : ℕ) (r : ℚ) : String :=
  mathOps.getD (jsRandInt r (min (if 3 < difficulty then 2 else 1) 3)) "?"

/-- Distractor sampling loop of `generateMathQuestion` (gameLogic.ts 31-38)
with explicit fuel: while fewer than 4 choices, draw `offset ∈ [-5,4]`; add
`answer + offset` when it is ≥ 0 and differs from the answer; when it is
negative instead add `answer + (1..5)` from a fresh draw; otherwise retry. -/
def mathChoicesLoop (answer : ℤ) : ℕ → List ℤ → Rng → List ℤ × Rng
  | 0, acc, g => (acc, g)
  | fuel + 1, acc, g =>
      if acc.length < 4 then
        let fake := answer + ((jsRandInt (g.stream g.idx) 10 : ℤ) - 5)
        if 0 ≤ fake ∧ fake ≠ answer then
          mathChoicesLoop answer fuel (setAdd acc fake) ⟨g.stream, g.idx + 1⟩
        else if fake < 0 then
          mathChoicesLoop answer fuel
            (setAdd acc (answer + (jsRandInt (g.stream (g.idx + 1)) 5 : ℤ) + 1))
            ⟨g.stream, g.idx + 2⟩
        else
          mathChoicesLoop answer fuel acc ⟨g.stream, g.idx + 1⟩
      else (acc, g)

/-- Operands, operator and answer of one math round. -/
structure MathProblem where
  a : ℕ
  b : ℕ
  operator : String
  answer : ℤ
  rng : Rng

/-- Operand and answer selection of `generateMathQuestion` (gameLogic.ts 6-29):
`a, b ∈ [1, 10*difficulty]`, redrawn from `[1,10]` when `difficulty < 3`; on
`'*'` both operands are redrawn from `[2, difficulty+3]`; on `'-'` the operands
are swapped when `a < b` so the result is non-negative. -/
def mathProblem (difficulty : ℕ) (g : Rng) : MathProblem :=
  let operator := mathOperator difficulty (g.stream g.idx)
  let a0 := jsRandInt (g.stream (g.idx + 1)) (10 * difficulty) + 1
  let b0 := jsRandInt (g.stream (g.idx + 2)) (10 * difficulty) + 1
  let a1 := if difficulty < 3 then jsRandInt (g.stream (g.idx + 3)) 10 + 1 else a0
  let b1 := if difficulty < 3 then jsRandInt (g.stream (g.idx + 4)) 10 + 1 else b0
  let k := g.idx + (if difficulty < 3 then 5 else 3)
  if operator = "*" then
    let a2 := jsRandInt (g.stream k) (difficulty + 2) + 2
    let b2 := jsRandInt (g.stream (k + 1)) (difficulty + 2) + 2
    { a := a2, b := b2, operator := operator, answer := (a2 : ℤ) * (b2 : ℤ),
      rng := ⟨g.stream, k + 2⟩ }
  else if operator = "-" then
    { a := max a1 b1, b := min a1 b1, operator := operator,
      answer := ((max a1 b1 : ℕ) : ℤ) - ((min a1 b1 : ℕ) : ℤ), rng := ⟨g.stream, k⟩ }
  else
    { a := a1, b := b1, operator := operator, answer := (a1 : ℤ) + (b1 : ℤ),
      rng := ⟨g.stream, k⟩ }

/-- A generated math round. -/
structure MathQuestion where
  question : String
  answer : ℤ
  choices : List ℤ
deriving DecidableEq, Repr

/-- `generateMathQuestion` (gameLogic.ts 4-45).  The trailing
`sort(() => Math.random() - 0.5)` permutes the choice list and is omitted:
every verified property is invariant under permutation. -/
def generateMathQuestion (difficulty fuel : ℕ) (g : Rng) : MathQuestion × Rng :=
  let p := mathProblem difficulty g
  let c := mathChoicesLoop p.answer fuel [p.answer] p.rng
  ({ question := toString p.a ++ " " ++ p.operator ++ " " ++ toString p.b,
     answer := p.answer, choices := c.1 }, c.2)

/-- Series and answer selection of `generateNumberSeries` (gameLogic.ts 152-176):
arithmetic for draws below 0.4, geometric below 0.7, alternating two-step
otherwise. -/
structure SeriesProblem where
  series : List ℤ
  answer : ℤ
  rng : Rng

/-- Series family selection of `generateNumberSeries` (gameLogic.ts 152-176). -/
def seriesProblem (difficulty : ℕ) (g : Rng) : SeriesProblem :=
  let t := g.stream g.idx
  let start := jsRandInt (g.stream (g.idx + 1)) 20 + 1
  if t < 0.4 then
    let step := jsRandInt (g.stream (g.idx + 2)) difficulty + 1
    { series := [(start : ℤ), (start : ℤ) + step, (start : ℤ) + step * 2,
        (start : ℤ) + step * 3],
      answer := (start : ℤ) + step * 4, rng := ⟨g.stream, g.idx + 3⟩ }
  else if t < 0.7 then
    let step := jsRandInt (g.stream (g.idx + 2)) 2 + 2
    let current := jsRandInt (g.stream (g.idx + 3)) 5 + 1
    { series := [(current : ℤ), (current : ℤ) * step, (current : ℤ) * step * step,
        (current : ℤ) * (step : ℤ) ^ 3],
      answer := (current : ℤ) * (step : ℤ) ^ 4, rng := ⟨g.stream, g.idx + 4⟩ }
  else
    let s1 := jsRandInt (g.stream (g.idx + 2)) 3 + 1
    let s2 := jsRandInt (g.stream (g.idx + 3)) 3 + 1
    { series := [(start : ℤ), (start : ℤ) + s1, (start : ℤ) + s1 + s2,
        (start : ℤ) + s1 + s2 + s1],
      answer := (start : ℤ) + s1 + s2 + s1 + s2, rng := ⟨g.stream, g.idx + 4⟩ }

/-- Distractor sampling loop of `generateNumberSeries` (gameLogic.ts 178-182):
while fewer than 4 choices, draw `offset ∈ [-10,9]` and add `answer + offset`
when it differs from the answer and is positive. -/
def seriesChoicesLoop (answer : ℤ) : ℕ → List ℤ → Rng → List ℤ × Rng
  | 0, acc, g => (acc, g)
  | fuel + 1, acc, g =>
      if acc.length < 4 then
        let fake := answer + ((jsRandInt (g.stream g.idx) 20 : ℤ) - 10)
        if fake ≠ answer ∧ 0 < fake then
          seriesChoicesLoop answer fuel (setAdd acc fake) ⟨g.stream, g.idx + 1⟩
        else seriesChoicesLoop answer fuel acc ⟨g.stream, g.idx + 1⟩
      else (acc, g)

/-- A generated number-series round. -/
structure SeriesQuestion where
  series : List ℤ
  answer : ℤ
  choices : List ℤ
deriving DecidableEq, Repr

/-- `generateNumberSeries` (gameLogic.ts 152-189); trailing shuffle omitted as
for the math generator. -/
def generateNumberSeries (difficulty fuel : ℕ) (g : Rng) : SeriesQuestion × Rng :=
  let p := seriesProblem difficulty g
  let c := seriesChoicesLoop p.answer fuel [p.answer] p.rng
  ({ series := p.series, answer := p.answer, choices := c.1 }, c.2)

/-- Target-index sampling loop of `generateMemoryGrid` (gameLogic.ts 74-77):
while fewer than `itemCount` indices, draw an index below `totalCells` into
the JS `Set`. -/
def memoryIndicesLoop (itemCount totalCells : ℕ) : ℕ → List ℕ → Rng → List ℕ × Rng
  | 0, acc, g => (acc, g)
  | fuel + 1, acc, g =>
      if acc.length < itemCount then
        memoryIndicesLoop itemCount totalCells fuel
          (setAddNat acc (jsRandInt (g.stream g.idx) totalCells)) ⟨g.stream, g.idx + 1⟩
      else (acc, g)

/-- A generated memory-grid round. -/
structure MemoryGridSpec where
  gridSize : ℕ
  targets : List ℕ
deriving DecidableEq, Repr

/-- `generateMemoryGrid` (gameLogic.ts 69-83): grid side `min(5, 3 + ⌊d/4⌋)`,
item count `min(⌊cells*0.6⌋, 3 + ⌊d/2⌋)`, target indices drawn without
replacement, with explicit fuel for the retry loop. -/
def generateMemoryGrid (difficulty fuel : ℕ) (g : Rng) : MemoryGridSpec × Rng :=
  let gridSize := min 5 (3 + difficulty / 4)
  let totalCells := gridSize * gridSize
  let itemCount := min (⌊(totalCells : ℚ) * 0.6⌋).toNat (3 + difficulty / 2)
  let t := memoryIndicesLoop itemCount totalCells fuel [] g
  ({ gridSize := gridSize, targets := t.1 }, t.2)

/-- C5 (code_bug evidence).  The operator index is drawn from
`[0, min(difficulty > 3 ? 2 : 1, 3))`, which never reaches index 2: the
multiplication operator is unreachable at every difficulty, contradicting the
claim that `×` is producible at sufficiently high difficulty (the `'*'` branch
at gameLogic.ts 19-22 is dead code). -/
theorem c5_operator_never_times (difficulty : ℕ) (r : ℚ) (h0 : 0 ≤ r) (h1 : r < 1) :
    mathOperator difficulty r ≠ "*" ∧
    (mathOperator difficulty r = "+" ∨ mathOperator difficulty r = "-") := by
  have hk : ((min (if 3 < difficulty then 2 else 1) 3 : ℕ) : ℚ) ≤ 2 := by
    split_ifs <;> norm_num
  have hn : (0 : ℚ) ≤ ((min (if 3 < difficulty then 2 else 1) 3 : ℕ) : ℚ) := by
    positivity
  have hmul : r * ((min (if 3 < difficulty then 2 else 1) 3 : ℕ) : ℚ) < 2 := by
    nlinarith
  have hfl : ⌊r * ((min (if 3 < difficulty then 2 else 1) 3 : ℕ) : ℚ)⌋ < 2 :=
    Int.floor_lt.mpr (by exact_mod_cast hmul)
  have hidx : jsRandInt r (min (if 3 < difficulty then 2 else 1) 3) ≤ 1 := by
    unfold jsRandInt
    omega
  have hcases : jsRandInt r (min (if 3 < difficulty then 2 else 1) 3) = 0 ∨
      jsRandInt r (min (if 3 < difficulty then 2 else 1) 3) = 1 := by omega
  unfold mathOperator
  rcases hcases with hc | hc <;> rw [hc] <;> exact ⟨by decide, by simp [mathOps]⟩

/-- Witness for C5: at difficulty 10 with draw 1/2 the operator is not `*`. -/
theorem c5_operator_never_times_witness :
    mathOperator 10 (1/2) ≠ "*" ∧
    (mathOperator 10 (1/2) = "+" ∨ mathOperator 10 (1/2) = "-") :=
  c5_operator_never_times 10 (1/2) (by norm_num) (by norm_num)

theorem jsRandInt_half_ten : jsRandInt (1/2) 10 = 5 := by
  have h : (1/2 : ℚ) * ((10 : ℕ) : ℚ) = ((5 : ℤ) : ℚ) := by norm_num
  simp only [jsRandInt]
  rw [h, Int.floor_intCast]
  rfl

theorem jsRandInt_half_twenty : jsRandInt (1/2) 20 = 10 := by
  have h : (1/2 : ℚ) * ((20 : ℕ) : ℚ) = ((10 : ℤ) : ℚ) := by norm_num
  simp only [jsRandInt]
  rw [h, Int.floor_intCast]
  rfl

theorem jsRandInt_zero (n : ℕ) : jsRandInt 0 n = 0 := by
  simp [jsRandInt]

/-- On the constant stream 1/2 the math distractor loop draws offset 0 every
time and never adds a choice. -/
theorem mathChoicesLoop_stuck (answer fuel : ℕ) :
    ∀ k, (mathChoicesLoop (answer : ℤ) fuel [(answer : ℤ)] ⟨fun _ => 1/2, k⟩).1
      = [(answer : ℤ)] := by
  induction fuel with
  | zero => intro k; rfl
  | succ fuel ih =>
      intro k
      simp only [mathChoicesLoop, List.length_singleton, jsRandInt_half_ten]
      rw [if_pos (by norm_num)]
      norm_num
      exact ih (k + 1)

/-- On the constant stream 1/2 the series distractor loop draws offset 0 every
time and never adds a choice. -/
theorem seriesChoicesLoop_stuck (answer fuel : ℕ) :
    ∀ k, (seriesChoicesLoop (answer : ℤ) fuel [(answer : ℤ)] ⟨fun _ => 1/2, k⟩).1
      = [(answer : ℤ)] := by
  induction fuel with
  | zero => intro k; rfl
  | succ fuel ih =>
      intro k
      simp only [seriesChoicesLoop, List.length_singleton, jsRandInt_half_twenty]
      rw [if_pos (by norm_num)]
      norm_num
      exact ih (k + 1)

/-- On the constant stream 0 the memory target loop keeps drawing index 0. -/
theorem memoryIndicesLoop_stuck (itemCount totalCells fuel : ℕ) (h : 1 < itemCount) :
    ∀ k, (memoryIndicesLoop itemCount totalCells fuel [0] ⟨fun _ => 0, k⟩).1 = [0] := by
  induction fuel with
  | zero => intro k; rfl
  | succ fuel ih =>
      intro k
      simp only [memoryIndicesLoop, List.length_singleton, jsRandInt_zero]
      rw [if_pos h, show setAddNat [0] 0 = [0] from rfl]
      exact ih (k + 1)

/-- C8 (code_bug evidence).  None of the three retry loops is bounded: on a
degenerate random source (constantly 1/2, resp. constantly 0) the math and
series distractor loops never grow past the single correct answer, and the
memory target loop (item count 3, 9 cells, difficulty 1 parameters) never
collects more than one index — no fuel bound ever reaches the required count,
so the generators are not total over all random sources. -/
theorem c8_unbounded_retry (fuel k answer : ℕ) :
    (mathChoicesLoop (answer : ℤ) fuel [(answer : ℤ)] ⟨fun _ => 1/2, k⟩).1
      = [(answer : ℤ)] ∧
    (seriesChoicesLoop (answer : ℤ) fuel [(answer : ℤ)] ⟨fun _ => 1/2, k⟩).1
      = [(answer : ℤ)] ∧
    (memoryIndicesLoop 3 9 fuel [] ⟨fun _ => 0, k⟩).1.length ≤ 1 := by
  refine ⟨mathChoicesLoop_stuck answer fuel k, seriesChoicesLoop_stuck answer fuel k, ?_⟩
  cases fuel with
  | zero => simp [memoryIndicesLoop]
  | succ fuel =>
      have h1 : (memoryIndicesLoop 3 9 (fuel + 1) [] ⟨fun _ => 0, k⟩).1
          = (memoryIndicesLoop 3 9 fuel [0] ⟨fun _ => 0, k + 1⟩).1 := by
        simp [memoryIndicesLoop, jsRandInt_zero, setAddNat]
      rw [h1, memoryIndicesLoop_stuck 3 9 fuel (by norm_num) (k + 1)]
      norm_num

/-! ## VisualMatch generator (gameLogic.ts 100-149) -/

/-- Shape groups (gameLogic.ts 101-107). -/
def shapeGroups : List (List String) :=
  [["●", "○", "⦿", "⊚", "⊙", "◍"],
   ["◆", "◇", "❖", "⬧", "⧫", "⟡"],
   ["★", "☆", "✶", "✴", "✷", "✦"],
   ["▲", "△", "▴", "▵", "▶", "▷"],
   ["◼", "◻", "◾", "◽", "▪", "▢"]]

/-- All 30 shapes flattened (gameLogic.ts 109). -/
def allShapes : List String := shapeGroups.flatten

/-- The flattened shapes of every group other than `groupIdx`
(gameLogic.ts 133). -/
def otherGroupShapes (groupIdx : ℕ) : List String :=
  ((shapeGroups.enum.filter (fun p => p.1 ≠ groupIdx)).map Prod.snd).flatten

/-- Option count `min(9, 2 + Math.floor(difficulty / 1.5))` (gameLogic.ts 115). -/
def numOptions (difficulty : ℕ) : ℕ := min 9 (2 + (⌊(difficulty : ℚ) / 1.5⌋).toNat)

/-- One choice button of a VisualMatch round. -/
structure VisualOption where
  id : String
  shape : String
  rot : ℕ
  isMatch : Bool
deriving DecidableEq, Repr

/-- A generated VisualMatch round. -/
structure VisualTask where
  targetShape : String
  targetRot : ℕ
  options : List VisualOption
deriving DecidableEq, Repr

/-- Distractor shape selection (gameLogic.ts 126-135): at difficulty > 3 with
probability 0.6 a visually similar shape from the target's group (the
`allShapes` fallback is dead because every group keeps 5 other shapes);
otherwise a shape from the other groups. -/
def visualDistractorShape (difficulty groupIdx : ℕ) (targetShape : String)
    (g : Rng) : String × Rng :=
  if 3 < difficulty then
    if 0.4 < g.stream g.idx then
      if ((shapeGroups.getD groupIdx []).filter (fun s => s ≠ targetShape)).length ≠ 0 then
        (((shapeGroups.getD groupIdx []).filter (fun s => s ≠ targetShape)).getD
            (jsRandInt (g.stream (g.idx + 1))
              ((shapeGroups.getD groupIdx []).filter (fun s => s ≠ targetShape)).length) "?",
          ⟨g.stream, g.idx + 2⟩)
      else
        ((allShapes.filter (fun s => s ≠ targetShape)).getD
            (jsRandInt (g.stream (g.idx + 1)) (allShapes.length - 1)) "?",
          ⟨g.stream, g.idx + 2⟩)
    else
      ((otherGroupShapes groupIdx).getD
          (jsRandInt (g.stream (g.idx + 1)) (otherGroupShapes groupIdx).length) "?",
        ⟨g.stream, g.idx + 2⟩)
  else
    ((otherGroupShapes groupIdx).getD
        (jsRandInt (g.stream g.idx) (otherGroupShapes groupIdx).length) "?",
      ⟨g.stream, g.idx + 1⟩)

/-- Distractor-adding loop of `generateVisualMatchTask` (gameLogic.ts 125-143):
each iteration appends one non-matching option with a fresh rotation. -/
def visualOptionsLoop (difficulty groupIdx : ℕ) (targetShape : String)
    (numOpts : ℕ) : ℕ → List VisualOption → Rng → List VisualOption × Rng
  | 0, opts, g => (opts, g)
  | fuel + 1, opts, g =>
      if opts.length < numOpts then
        visualOptionsLoop difficulty groupIdx targetShape numOpts fuel
          (opts ++ [{ id := "wrong_" ++ toString opts.length,
                      shape := (visualDistractorShape difficulty groupIdx targetShape g).1,
                      rot := jsRandInt
                        ((visualDistractorShape difficulty groupIdx targetShape g).2.stream
                          (visualDistractorShape difficulty groupIdx targetShape g).2.idx) 4 * 90,
                      isMatch := false }])
          ⟨(visualDistractorShape difficulty groupIdx targetShape g).2.stream,
            (visualDistractorShape difficulty groupIdx targetShape g).2.idx + 1⟩
      else (opts, g)

/-- `generateVisualMatchTask` (gameLogic.ts 100-149): target group, shape and
rotation, a correct option with independent rotation, then distractors up to
`numOptions`.  The trailing shuffle is omitted as for the math generator. -/
def generateVisualMatchTask (difficulty : ℕ) (g : Rng) : VisualTask × Rng :=
  let groupIdx := jsRandInt (g.stream g.idx) shapeGroups.length
  let targetShape := (shapeGroups.getD groupIdx []).getD
    (jsRandInt (g.stream (g.idx + 1)) (shapeGroups.getD groupIdx []).length) "?"
  let targetRot := jsRandInt (g.stream (g.idx + 2)) 4 * 90
  let t := visualOptionsLoop difficulty groupIdx targetShape (numOptions difficulty)
    (numOptions difficulty)
    [{ id := "correct", shape := targetShape,
       rot := jsRandInt (g.stream (g.idx + 3)) 4 * 90, isMatch := true }]
    ⟨g.stream, g.idx + 4⟩
  ({ targetShape := targetShape, targetRot := targetRot, options := t.1 }, t.2)

theorem setAdd_nodup {l : List ℤ} (h : l.Nodup) (x : ℤ) : (setAdd l x).Nodup := by
  unfold setAdd
  split_ifs with hx
  · exact h
  · simp [List.nodup_append, h, hx]

theorem setAdd_mem {l : List ℤ} {a : ℤ} (h : a ∈ l) (x : ℤ) : a ∈ setAdd l x := by
  unfold setAdd
  split_ifs
  · exact h
  · exact List.mem_append_left _ h

theorem setAdd_length (l : List ℤ) (x : ℤ) : (setAdd l x).length ≤ l.length + 1 := by
  unfold setAdd
  split_ifs <;> simp

/-- The math distractor loop keeps the choice set duplicate-free, keeps every
already-collected choice, and never exceeds 4 choices. -/
theorem mathChoicesLoop_props (answer : ℤ) (fuel : ℕ) :
    ∀ (acc : List ℤ) (g : Rng), acc.Nodup →
      ((mathChoicesLoop answer fuel acc g).1.Nodup ∧
        (∀ a ∈ acc, a ∈ (mathChoicesLoop answer fuel acc g).1) ∧
        (mathChoicesLoop answer fuel acc g).1.length ≤ max acc.length 4) := by
  induction fuel with
  | zero => exact fun acc g h => ⟨h, fun a ha => ha, le_max_left _ _⟩
  | succ fuel ih =>
      intro acc g h
      simp only [mathChoicesLoop]
      split_ifs with hlen hf hneg
      · obtain ⟨ih1, ih2, ih3⟩ := ih (setAdd acc _) _ (setAdd_nodup h _)
        have hl := setAdd_length acc (answer + ((jsRandInt (g.stream g.idx) 10 : ℤ) - 5))
        exact ⟨ih1, fun a ha => ih2 a (setAdd_mem ha _), by omega⟩
      · obtain ⟨ih1, ih2, ih3⟩ := ih (setAdd acc _) _ (setAdd_nodup h _)
        have hl := setAdd_length acc (answer + (jsRandInt (g.stream (g.idx + 1)) 5 : ℤ) + 1)
        exact ⟨ih1, fun a ha => ih2 a (setAdd_mem ha _), by omega⟩
      · obtain ⟨ih1, ih2, ih3⟩ := ih acc _ h
        exact ⟨ih1, ih2, by omega⟩
      · exact ⟨h, fun a ha => ha, le_max_left _ _⟩

/-- The series distractor loop keeps the choice set duplicate-free, keeps every
already-collected choice, and never exceeds 4 choices. -/
theorem seriesChoicesLoop_props (answer : ℤ) (fuel : ℕ) :
    ∀ (acc : List ℤ) (g : Rng), acc.Nodup →
      ((seriesChoicesLoop answer fuel acc g).1.Nodup ∧
        (∀ a ∈ acc, a ∈ (seriesChoicesLoop answer fuel acc g).1) ∧
        (seriesChoicesLoop answer fuel acc g).1.length ≤ max acc.length 4) := by
  induction fuel with
  | zero => exact fun acc g h => ⟨h, fun a ha => ha, le_max_left _ _⟩
  | succ fuel ih =>
      intro acc g h
      simp only [seriesChoicesLoop]
      split_ifs with hlen hf
      · obtain ⟨ih1, ih2, ih3⟩ := ih (setAdd acc _) _ (setAdd_nodup h _)
        have hl := setAdd_length acc (answer + ((jsRandInt (g.stream g.idx) 20 : ℤ) - 10))
        exact ⟨ih1, fun a ha => ih2 a (setAdd_mem ha _), by omega⟩
      · obtain ⟨ih1, ih2, ih3⟩ := ih acc _ h
        exact ⟨ih1, ih2, by omega⟩
      · exact ⟨h, fun a ha => ha, le_max_left _ _⟩

theorem getD_mem {α : Type} : ∀ (l : List α) (i : ℕ) (d : α), i < l.length → l.getD i d ∈ l
  | [], i, d, h => absurd h (by simp)
  | a :: l, 0, d, _ => List.mem_cons_self a l
  | a :: l, i + 1, d, h =>
      List.mem_cons_of_mem a (getD_mem l i d (by simpa using h))

theorem jsRandInt_lt {r : ℚ} (_h0 : 0 ≤ r) (h1 : r < 1) {n : ℕ} (hn : 0 < n) :
    jsRandInt r n < n := by
  have hnq : (0 : ℚ) < (n : ℚ) := by exact_mod_cast hn
  have hmul : r * (n : ℚ) < (n : ℚ) := by nlinarith
  have hf : ⌊r * (n : ℚ)⌋ < (n : ℤ) := Int.floor_lt.mpr (by exact_mod_cast hmul)
  unfold jsRandInt
  omega

theorem shapeGroups_getD_length {groupIdx : ℕ} (h : groupIdx < 5) :
    (shapeGroups.getD groupIdx []).length = 6 := by
  interval_cases groupIdx <;> rfl

theorem group_filter_ne_nonempty {groupIdx : ℕ} (h5 : groupIdx < 5) {ts : String}
    (hts : ts ∈ shapeGroups.getD groupIdx []) :
    ((shapeGroups.getD groupIdx []).filter (fun s => s ≠ ts)).length ≠ 0 := by
  interval_cases groupIdx <;> fin_cases hts <;> decide

theorem otherGroupShapes_length {groupIdx : ℕ} (h5 : groupIdx < 5) :
    (otherGroupShapes groupIdx).length = 24 := by
  interval_cases groupIdx <;> rfl

theorem mem_otherGroupShapes_ne {groupIdx : ℕ} (h5 : groupIdx < 5) {ts : String}
    (hts : ts ∈ shapeGroups.getD groupIdx []) :
    ts ∉ otherGroupShapes groupIdx := by
  interval_cases groupIdx <;> fin_cases hts <;> decide

/-- A distractor shape never equals the target shape. -/
theorem visualDistractorShape_ne (difficulty groupIdx : ℕ) (targetShape : String)
    (g : Rng) (hv : ValidStream g.stream) (h5 : groupIdx < 5)
    (hts : targetShape ∈ shapeGroups.getD groupIdx []) :
    (visualDistractorShape difficulty groupIdx targetShape g).1 ≠ targetShape := by
  unfold visualDistractorShape
  split_ifs with hd hr hlen
  · have hpos : 0 < ((shapeGroups.getD groupIdx []).filter
        (fun s => s ≠ targetShape)).length := Nat.pos_of_ne_zero hlen
    have hidx := jsRandInt_lt (hv (g.idx + 1)).1 (hv (g.idx + 1)).2 hpos
    have hmem := getD_mem _ _ "?" hidx
    have hp := List.of_mem_filter hmem
    exact of_decide_eq_true hp
  · exact absurd (group_filter_ne_nonempty h5 hts) (by simpa using hlen)
  · have hpos : 0 < (otherGroupShapes groupIdx).length := by
      rw [otherGroupShapes_length h5]
      norm_num
    have hidx := jsRandInt_lt (hv (g.idx + 1)).1 (hv (g.idx + 1)).2 hpos
    have hmem := getD_mem _ _ "?" hidx
    intro heq
    exact mem_otherGroupShapes_ne h5 hts (heq ▸ hmem)
  · have hpos : 0 < (otherGroupShapes groupIdx).length := by
      rw [otherGroupShapes_length h5]
      norm_num
    have hidx := jsRandInt_lt (hv g.idx).1 (hv g.idx).2 hpos
    have hmem := getD_mem _ _ "?" hidx
    intro heq
    exact mem_otherGroupShapes_ne h5 hts (heq ▸ hmem)

theorem visualDistractorShape_stream (difficulty groupIdx : ℕ) (targetShape : String)
    (g : Rng) :
    (visualDistractorShape difficulty groupIdx targetShape g).2.stream = g.stream := by
  unfold visualDistractorShape
  split_ifs <;> rfl

/-- Length bookkeeping for the distractor-adding loop. -/
theorem visualOptionsLoop_length (difficulty groupIdx : ℕ) (targetShape : String)
    (numOpts : ℕ) (fuel : ℕ) :
    ∀ (opts : List VisualOption) (g : Rng),
      ((visualOptionsLoop difficulty groupIdx targetShape numOpts fuel opts g).1).length =
        max opts.length (min numOpts (opts.length + fuel)) := by
  induction fuel with
  | zero =>
      intro opts g
      simp only [visualOptionsLoop, Nat.add_zero]
      omega
  | succ fuel ih =>
      intro opts g
      simp only [visualOptionsLoop]
      split_ifs with hlen
      · rw [ih]
        simp only [List.length_append, List.length_singleton]
        omega
      · dsimp only
        omega

/-- The loop appends only non-matching options: the `isMatch` count is
unchanged. -/
theorem visualOptionsLoop_countP_isMatch (difficulty groupIdx : ℕ)
    (targetShape : String) (numOpts : ℕ) (fuel : ℕ) :
    ∀ (opts : List VisualOption) (g : Rng),
      ((visualOptionsLoop difficulty groupIdx targetShape numOpts fuel opts g).1).countP
          (fun o => o.isMatch) = opts.countP (fun o => o.isMatch) := by
  induction fuel with
  | zero => intro opts g; rfl
  | succ fuel ih =>
      intro opts g
      simp only [visualOptionsLoop]
      split_ifs with hlen
      · rw [ih]
        simp [List.countP_append]
      · rfl

/-- The loop appends only shapes different from the target: the count of
options carrying the target shape is unchanged. -/
theorem visualOptionsLoop_countP_shape (difficulty groupIdx : ℕ)
    (targetShape : String) (numOpts : ℕ) (fuel : ℕ)
    (h5 : groupIdx < 5) (hts : targetShape ∈ shapeGroups.getD groupIdx []) :
    ∀ (opts : List VisualOption) (g : Rng), ValidStream g.stream →
      ((visualOptionsLoop difficulty groupIdx targetShape numOpts fuel opts g).1).countP
          (fun o => o.shape == targetShape) =
        opts.countP (fun o => o.shape == targetShape) := by
  induction fuel with
  | zero => intro opts g _; rfl
  | succ fuel ih =>
      intro opts g hv
      simp only [visualOptionsLoop]
      split_ifs with hlen
      · rw [ih _ _ (by rw [visualDistractorShape_stream]; exact hv)]
        have hne := visualDistractorShape_ne difficulty groupIdx targetShape g hv h5 hts
        simp [List.countP_append, List.countP_singleton, hne]
      · rfl

theorem numOptions_ge_two (d : ℕ) : 2 ≤ numOptions d := by
  unfold numOptions
  omega

theorem numOptions_le_nine (d : ℕ) : numOptions d ≤ 9 := min_le_left _ _

theorem numOptions_ge_three {d : ℕ} (h : 2 ≤ d) : 3 ≤ numOptions d := by
  have h1 : (1 : ℤ) ≤ ⌊(d : ℚ) / 1.5⌋ := by
    apply Int.le_floor.mpr
    have hd : (2 : ℚ) ≤ (d : ℚ) := by exact_mod_cast h
    rw [le_div_iff₀ (by norm_num)]
    push_cast
    linarith
  unfold numOptions
  omega

theorem numOptions_one : numOptions 1 = 2 := by
  have h : ⌊((1 : ℕ) : ℚ) / 1.5⌋ = 0 := by
    rw [Int.floor_eq_zero_iff]
    constructor <;> norm_num
  unfold numOptions
  rw [h]
  rfl

/-- The math distractor loop started from the singleton correct answer yields
a duplicate-free list containing the answer exactly once, of length ≤ 4. -/
theorem mathChoices_final (answer : ℤ) (fuel : ℕ) (g : Rng) :
    (mathChoicesLoop answer fuel [answer] g).1.Nodup ∧
    (mathChoicesLoop answer fuel [answer] g).1.count answer = 1 ∧
    (mathChoicesLoop answer fuel [answer] g).1.length ≤ 4 := by
  obtain ⟨h1, h2, h3⟩ :=
    mathChoicesLoop_props answer fuel [answer] g (List.nodup_singleton _)
  refine ⟨h1, List.count_eq_one_of_mem h1 (h2 answer (List.mem_singleton_self _)), ?_⟩
  simpa using h3

/-- Same for the series distractor loop. -/
theorem seriesChoices_final (answer : ℤ) (fuel : ℕ) (g : Rng) :
    (seriesChoicesLoop answer fuel [answer] g).1.Nodup ∧
    (seriesChoicesLoop answer fuel [answer] g).1.count answer = 1 ∧
    (seriesChoicesLoop answer fuel [answer] g).1.length ≤ 4 := by
  obtain ⟨h1, h2, h3⟩ :=
    seriesChoicesLoop_props answer fuel [answer] g (List.nodup_singleton _)
  refine ⟨h1, List.count_eq_one_of_mem h1 (h2 answer (List.mem_singleton_self _)), ?_⟩
  simpa using h3

/-- The VisualMatch option list always has exactly `numOptions difficulty`
entries. -/
theorem generateVisualMatchTask_options_length (d : ℕ) (g : Rng) :
    (generateVisualMatchTask d g).1.options.length = numOptions d := by
  have h2 := numOptions_ge_two d
  simp only [generateVisualMatchTask]
  rw [visualOptionsLoop_length]
  simp only [List.length_singleton]
  omega

/-- The VisualMatch option list contains exactly one option flagged as a
match, and exactly one option carrying the target shape. -/
theorem generateVisualMatchTask_one_match (d : ℕ) (ρ : ℕ → ℚ) (k : ℕ)
    (hρ : ValidStream ρ) :
    (generateVisualMatchTask d ⟨ρ, k⟩).1.options.countP (fun o => o.isMatch) = 1 ∧
    (generateVisualMatchTask d ⟨ρ, k⟩).1.options.countP
      (fun o => o.shape == (generateVisualMatchTask d ⟨ρ, k⟩).1.targetShape) = 1 := by
  have h5 : jsRandInt (ρ k) shapeGroups.length < 5 :=
    jsRandInt_lt (hρ k).1 (hρ k).2 (by norm_num [shapeGroups])
  have hgl : (shapeGroups.getD (jsRandInt (ρ k) shapeGroups.length) []).length = 6 :=
    shapeGroups_getD_length h5
  have hts : (shapeGroups.getD (jsRandInt (ρ k) shapeGroups.length) []).getD
      (jsRandInt (ρ (k + 1))
        (shapeGroups.getD (jsRandInt (ρ k) shapeGroups.length) []).length) "?"
      ∈ shapeGroups.getD (jsRandInt (ρ k) shapeGroups.length) [] :=
    getD_mem _ _ _ (jsRandInt_lt (hρ (k + 1)).1 (hρ (k + 1)).2 (by rw [hgl]; norm_num))
  constructor
  · simp only [generateVisualMatchTask]
    rw [visualOptionsLoop_countP_isMatch]
    rfl
  · simp only [generateVisualMatchTask]
    rw [visualOptionsLoop_countP_shape d _ _ _ _ h5 hts _ _ hρ]
    simp

/-- C6 (amended).  For every difficulty in [1,10] and lawful random source:
the Math and NumberSeries choice sets are duplicate-free, contain the correct
answer exactly once and never exceed 4 entries (exactly 4 whenever their retry
loop completes); VisualMatch yields `min(9, 2 + floor(difficulty/1.5))`
options — 2 at difficulty 1, between 3 and 9 from difficulty 2 on — of which
exactly one is flagged as the match and exactly one carries the target
shape. -/
theorem c6_choice_sets (d fuel k : ℕ) (ρ : ℕ → ℚ) (hρ : ValidStream ρ)
    (_hd1 : 1 ≤ d) (_hd10 : d ≤ 10) :
    ((generateMathQuestion d fuel ⟨ρ, k⟩).1.choices.Nodup ∧
      (generateMathQuestion d fuel ⟨ρ, k⟩).1.choices.count
        (generateMathQuestion d fuel ⟨ρ, k⟩).1.answer = 1 ∧
      (generateMathQuestion d fuel ⟨ρ, k⟩).1.choices.length ≤ 4) ∧
    ((generateNumberSeries d fuel ⟨ρ, k⟩).1.choices.Nodup ∧
      (generateNumberSeries d fuel ⟨ρ, k⟩).1.choices.count
        (generateNumberSeries d fuel ⟨ρ, k⟩).1.answer = 1 ∧
      (generateNumberSeries d fuel ⟨ρ, k⟩).1.choices.length ≤ 4) ∧
    ((generateVisualMatchTask d ⟨ρ, k⟩).1.options.length = numOptions d ∧
      2 ≤ numOptions d ∧ numOptions d ≤ 9 ∧ (2 ≤ d → 3 ≤ numOptions d) ∧
      (generateVisualMatchTask d ⟨ρ, k⟩).1.options.countP (fun o => o.isMatch) = 1 ∧
      (generateVisualMatchTask d ⟨ρ, k⟩).1.options.countP
        (fun o => o.shape == (generateVisualMatchTask d ⟨ρ, k⟩).1.targetShape) = 1) := by
  obtain ⟨hm1, hm2, hm3⟩ :=
    mathChoices_final (mathProblem d ⟨ρ, k⟩).answer fuel (mathProblem d ⟨ρ, k⟩).rng
  obtain ⟨hs1, hs2, hs3⟩ :=
    seriesChoices_final (seriesProblem d ⟨ρ, k⟩).answer fuel (seriesProblem d ⟨ρ, k⟩).rng
  obtain ⟨hv1, hv2⟩ := generateVisualMatchTask_one_match d ρ k hρ
  exact ⟨⟨hm1, hm2, hm3⟩, ⟨hs1, hs2, hs3⟩,
    generateVisualMatchTask_options_length d ⟨ρ, k⟩, numOptions_ge_two d,
    numOptions_le_nine d, fun h2 => numOptions_ge_three h2, hv1, hv2⟩

/-- Counterexample for C6: at difficulty 1 the VisualMatch generator produces
only 2 options (`min(9, 2 + floor(1/1.5)) = 2`), not the 3 to 9 the claim
states. -/
theorem c6_visualmatch_two_options :
    (generateVisualMatchTask 1 ⟨fun _ => 0, 0⟩).1.options.length = 2 := by
  rw [generateVisualMatchTask_options_length, numOptions_one]

/-- Witness for C6: the amended claim instantiated at difficulty 4 with the
constant-zero random source. -/
theorem c6_choice_sets_witness :
    ((generateMathQuestion 4 8 ⟨fun _ => 0, 0⟩).1.choices.Nodup ∧
      (generateMathQuestion 4 8 ⟨fun _ => 0, 0⟩).1.choices.count
        (generateMathQuestion 4 8 ⟨fun _ => 0, 0⟩).1.answer = 1 ∧
      (generateMathQuestion 4 8 ⟨fun _ => 0, 0⟩).1.choices.length ≤ 4) ∧
    ((generateNumberSeries 4 8 ⟨fun _ => 0, 0⟩).1.choices.Nodup ∧
      (generateNumberSeries 4 8 ⟨fun _ => 0, 0⟩).1.choices.count
        (generateNumberSeries 4 8 ⟨fun _ => 0, 0⟩).1.answer = 1 ∧
      (generateNumberSeries 4 8 ⟨fun _ => 0, 0⟩).1.choices.length ≤ 4) ∧
    ((generateVisualMatchTask 4 ⟨fun _ => 0, 0⟩).1.options.length = numOptions 4 ∧
      2 ≤ numOptions 4 ∧ numOptions 4 ≤ 9 ∧ (2 ≤ 4 → 3 ≤ numOptions 4) ∧
      (generateVisualMatchTask 4 ⟨fun _ => 0, 0⟩).1.options.countP
        (fun o => o.isMatch) = 1 ∧
      (generateVisualMatchTask 4 ⟨fun _ => 0, 0⟩).1.options.countP
        (fun o => o.shape == (generateVisualMatchTask 4 ⟨fun _ => 0, 0⟩).1.targetShape)
        = 1) :=
  c6_choice_sets 4 8 0 (fun _ => 0) (fun _ => ⟨le_refl 0, by norm_num⟩)
    (by norm_num) (by norm_num)

/-! ## MemoryGrid recall state machine (GameSession.tsx 144-162) -/

/-- `handleMemoryClick` (GameSession.tsx 144-162): clicks on already-selected
cells are ignored; a click on a non-target cell resolves the round incorrect
(counting the attempt); a click on a target cell joins the selection, and when
the selection reaches the full target count the round resolves correct
(counting the attempt).  The last component is the resolution, `none` while
the round continues. -/
def handleMemoryClick (targets : List ℕ) (selected : Finset ℕ) (index : ℕ)
    (s : SessionState) : Finset ℕ × SessionState × Option Bool :=
  if index ∈ selected then (selected, s, none)
  else if index ∉ targets then
    (selected, handleAnswer .memory false { s with totalCount := s.totalCount + 1 },
      some false)
  else if (insert index selected).card = targets.length then
    (insert index selected,
      handleAnswer .memory true { s with totalCount := s.totalCount + 1 }, some true)
  else (insert index selected, s, none)

/-- A recall phase: clicks processed in order until the round resolves. -/
def runMemoryClicks (targets : List ℕ) :
    List ℕ → Finset ℕ → SessionState → Finset ℕ × SessionState × Option Bool
  | [], sel, s => (sel, s, none)
  | i :: is, sel, s =>
      match handleMemoryClick targets sel i s with
      | (sel1, s1, none) => runMemoryClicks targets is sel1 s1
      | r => r

theorem handleMemoryClick_none_frame (targets : List ℕ) (sel : Finset ℕ) (i : ℕ)
    (s : SessionState) (h : (handleMemoryClick targets sel i s).2.2 = none) :
    (handleMemoryClick targets sel i s).2.1 = s := by
  unfold handleMemoryClick at *
  split_ifs at h ⊢ <;> simp_all

theorem handleMemoryClick_some_total (targets : List ℕ) (sel : Finset ℕ) (i : ℕ)
    (s : SessionState) (b : Bool)
    (h : (handleMemoryClick targets sel i s).2.2 = some b) :
    (handleMemoryClick targets sel i s).2.1.totalCount = s.totalCount + 1 := by
  unfold handleMemoryClick at *
  split_ifs at h ⊢ <;> simp_all [handleAnswer, GameId.isMultiStep]

/-- Total-attempt bookkeeping over a whole recall phase: `totalCount` gains
exactly 1 when the phase resolves and 0 while it has not. -/
theorem runMemoryClicks_total (targets : List ℕ) (clicks : List ℕ) :
    ∀ (sel : Finset ℕ) (s : SessionState),
      (runMemoryClicks targets clicks sel s).2.1.totalCount =
        (if (runMemoryClicks targets clicks sel s).2.2.isSome then s.totalCount + 1
          else s.totalCount) := by
  induction clicks with
  | nil => intro sel s; simp [runMemoryClicks]
  | cons i is ih =>
      intro sel s
      rcases hr : handleMemoryClick targets sel i s with ⟨sel1, s1, ob⟩
      cases ob with
      | none =>
          have hs1 : s1 = s := by
            have hfr := handleMemoryClick_none_frame targets sel i s (by rw [hr])
            rw [hr] at hfr
            exact hfr
          rw [show runMemoryClicks targets (i :: is) sel s =
              runMemoryClicks targets is sel1 s1 from by
            simp [runMemoryClicks, hr]]
          rw [ih sel1 s1, hs1]
      | some b =>
          have ht : s1.totalCount = s.totalCount + 1 := by
            have hto := handleMemoryClick_some_total targets sel i s b (by rw [hr])
            rw [hr] at hto
            exact hto
          rw [show runMemoryClicks targets (i :: is) sel s = (sel1, s1, some b) from by
            simp [runMemoryClicks, hr]]
          simp [ht]

/-- C7.  In the MemoryGrid recall phase, a click on a non-target unselected
cell resolves the round incorrect immediately; a click on a target cell adds
it to the selection set, and the round resolves correct exactly when the
selection set equals the full target set; `totalCount` increments exactly once
per round, at resolution, regardless of how many clicks the round took. -/
theorem c7_memory_recall (targets : List ℕ) (sel : Finset ℕ) (i : ℕ)
    (s : SessionState) (clicks : List ℕ)
    (hnd : targets.Nodup) (hsub : ∀ j ∈ sel, j ∈ targets) :
    (i ∉ sel → i ∉ targets →
      handleMemoryClick targets sel i s =
        (sel, handleAnswer GameId.memory false
          { s with totalCount := s.totalCount + 1 }, some false)) ∧
    (i ∉ sel → i ∈ targets →
      (handleMemoryClick targets sel i s).1 = insert i sel ∧
      ((handleMemoryClick targets sel i s).2.2 = some true ↔
        insert i sel = targets.toFinset) ∧
      ((handleMemoryClick targets sel i s).2.2 = none →
        (handleMemoryClick targets sel i s).2.1 = s)) ∧
    (i ∈ sel → handleMemoryClick targets sel i s = (sel, s, none)) ∧
    ((runMemoryClicks targets clicks ∅ s).2.1.totalCount =
      (if (runMemoryClicks targets clicks ∅ s).2.2.isSome then s.totalCount + 1
        else s.totalCount)) := by
  have hcardt : targets.toFinset.card = targets.length :=
    List.toFinset_card_of_nodup hnd
  refine ⟨?_, ?_, ?_, runMemoryClicks_total targets clicks ∅ s⟩
  · intro h1 h2
    unfold handleMemoryClick
    rw [if_neg h1, if_pos h2]
  · intro h1 h2
    have hni : ¬ i ∉ targets := not_not_intro h2
    have hsubset : insert i sel ⊆ targets.toFinset := by
      intro j hj
      rcases Finset.mem_insert.mp hj with hj | hj
      · exact List.mem_toFinset.mpr (hj ▸ h2)
      · exact List.mem_toFinset.mpr (hsub j hj)
    by_cases hcard : (insert i sel).card = targets.length
    · have heq : insert i sel = targets.toFinset :=
        Finset.eq_of_subset_of_card_le hsubset (by omega)
      unfold handleMemoryClick
      rw [if_neg h1, if_neg hni, if_pos hcard]
      exact ⟨rfl, ⟨fun _ => heq, fun _ => rfl⟩, fun h => Option.noConfusion h⟩
    · unfold handleMemoryClick
      rw [if_neg h1, if_neg hni, if_neg hcard]
      refine ⟨rfl, ?_, fun _ => rfl⟩
      constructor
      · intro h
        exact Option.noConfusion h
      · intro heq
        exact absurd (show (insert i sel).card = targets.length by
          rw [heq, hcardt]) hcard
  · intro h1
    unfold handleMemoryClick
    rw [if_pos h1]

/-- Witness for C7: three targets, one already selected, clicking target 1. -/
theorem c7_memory_recall_witness :
    ((1 : ℕ) ∉ ({0} : Finset ℕ) → (1 : ℕ) ∉ [0, 1, 2] →
      handleMemoryClick [0, 1, 2] {0} 1 initialState =
        ({0}, handleAnswer GameId.memory false
          { initialState with totalCount := initialState.totalCount + 1 },
          some false)) ∧
    ((1 : ℕ) ∉ ({0} : Finset ℕ) → (1 : ℕ) ∈ [0, 1, 2] →
      (handleMemoryClick [0, 1, 2] {0} 1 initialState).1 = insert 1 {0} ∧
      ((handleMemoryClick [0, 1, 2] {0} 1 initialState).2.2 = some true ↔
        insert 1 {0} = ([0, 1, 2] : List ℕ).toFinset) ∧
      ((handleMemoryClick [0, 1, 2] {0} 1 initialState).2.2 = none →
        (handleMemoryClick [0, 1, 2] {0} 1 initialState).2.1 = initialState)) ∧
    ((1 : ℕ) ∈ ({0} : Finset ℕ) →
      handleMemoryClick [0, 1, 2] {0} 1 initialState = ({0}, initialState, none)) ∧
    ((runMemoryClicks [0, 1, 2] [0, 5] ∅ initialState).2.1.totalCount =
      (if (runMemoryClicks [0, 1, 2] [0, 5] ∅ initialState).2.2.isSome then
        initialState.totalCount + 1 else initialState.totalCount)) :=
  c7_memory_recall [0, 1, 2] {0} 1 initialState [0, 5] (by decide) (by decide)

/-! ## Reflex game (gameLogic.ts 229-253, GameSession.tsx 411-438) -/

/-- One grid cell of a Reflex round. -/
structure ReflexItem where
  id : ℕ
  shape : String
  active : Bool
deriving DecidableEq, Repr

/-- A generated Reflex round. -/
structure ReflexTask where
  size : ℕ
  total : ℕ
  activeIndex : ℕ
  items : List ReflexItem
deriving DecidableEq, Repr

/-- Icon names (gameLogic.ts 235). -/
def reflexShapes : List String := ["zap", "circle", "square", "triangle", "star"]

/-- Cell construction (gameLogic.ts 238-245): one shape draw per cell, active
exactly at `activeIndex`. -/
def reflexItemsAux (activeIndex : ℕ) : ℕ → ℕ → Rng → List ReflexItem × Rng
  | _, 0, g => ([], g)
  | i, count + 1, g =>
      let rest := reflexItemsAux activeIndex (i + 1) count ⟨g.stream, g.idx + 1⟩
      (⟨i, reflexShapes.getD (jsRandInt (g.stream g.idx) reflexShapes.length) "?",
          i == activeIndex⟩ :: rest.1, rest.2)

/-- `generateReflexTask` (gameLogic.ts 229-253): grid side `min(5, 3 + ⌊d/4⌋)`,
one active index drawn uniformly, decorative shapes everywhere. -/
def generateReflexTask (difficulty : ℕ) (g : Rng) : ReflexTask × Rng :=
  let size := min 5 (3 + difficulty / 4)
  let total := size * size
  let activeIndex := jsRandInt (g.stream g.idx) total
  let t := reflexItemsAux activeIndex 0 total ⟨g.stream, g.idx + 1⟩
  ({ size := size, total := total, activeIndex := activeIndex, items := t.1 }, t.2)

/-- Out-of-range lookups behave as an inactive cell. -/
def defaultReflexItem : ReflexItem := ⟨0, "", false⟩

/-- Reflex renderer click (GameSession.tsx 424):
`onMouseDown={() => isActive ? handleAnswer(true) : null}` — only the active
cell resolves the round, always as correct. -/
def reflexClick (t : ReflexTask) (i : ℕ) (s : SessionState) : SessionState :=
  if (t.items.getD i defaultReflexItem).active then handleAnswer .reflex true s
  else s

theorem reflex_counts_foldl (t : ReflexTask) (clicks : List ℕ) :
    ∀ s : SessionState, s.correctCount = s.totalCount →
      ((clicks.foldl (fun s j => reflexClick t j s) s).correctCount =
        (clicks.foldl (fun s j => reflexClick t j s) s).totalCount) := by
  induction clicks with
  | nil => exact fun s h => h
  | cons j js ih =>
      intro s h
      refine ih (reflexClick t j s) ?_
      unfold reflexClick
      split_ifs
      · simp [handleAnswer, GameId.isMultiStep]
        omega
      · exact h

/-- C9.  In the Reflex game, an interaction on any non-active cell leaves the
entire session state unchanged; every interaction is either a no-op or a
correct resolution, so a Reflex round can never resolve as incorrect, and over
any click sequence `correctCount` equals `totalCount`. -/
theorem c9_reflex_frame (t : ReflexTask) (i : ℕ) (s : SessionState)
    (clicks : List ℕ) :
    ((t.items.getD i defaultReflexItem).active = false → reflexClick t i s = s) ∧
    (reflexClick t i s = s ∨ reflexClick t i s = handleAnswer GameId.reflex true s) ∧
    ((clicks.foldl (fun s j => reflexClick t j s) initialState).correctCount =
      (clicks.foldl (fun s j => reflexClick t j s) initialState).totalCount) := by
  refine ⟨?_, ?_, reflex_counts_foldl t clicks initialState rfl⟩
  · intro h
    unfold reflexClick
    rw [if_neg (by rw [h]; exact Bool.false_ne_true)]
  · unfold reflexClick
    split_ifs
    · right
      rfl
    · left
      rfl

/-- Witness for C9: the concrete difficulty-1 Reflex round (active index 0)
with a click on the inactive cell 3 and the click sequence [3, 0]. -/
theorem c9_reflex_frame_witness :
    (((generateReflexTask 1 ⟨fun _ => 0, 0⟩).1.items.getD 3 defaultReflexItem).active
        = false →
      reflexClick (generateReflexTask 1 ⟨fun _ => 0, 0⟩).1 3 initialState =
        initialState) ∧
    (reflexClick (generateReflexTask 1 ⟨fun _ => 0, 0⟩).1 3 initialState =
        initialState ∨
      reflexClick (generateReflexTask 1 ⟨fun _ => 0, 0⟩).1 3 initialState =
        handleAnswer GameId.reflex true initialState) ∧
    (([3, 0].foldl
        (fun s j => reflexClick (generateReflexTask 1 ⟨fun _ => 0, 0⟩).1 j s)
        initialState).correctCount =
      ([3, 0].foldl
        (fun s j => reflexClick (generateReflexTask 1 ⟨fun _ => 0, 0⟩).1 j s)
        initialState).totalCount) :=
  c9_reflex_frame (generateReflexTask 1 ⟨fun _ => 0, 0⟩).1 3 initialState [3, 0]

end BrainTrain
